import Mathlib

/-!
Verification of the Monte Carlo experiment orchestrator
(`pynoddy/experiment/MonteCarlo.py`) against its specification.

The Python code is shallowly embedded. Pure path/string manipulation is
translated directly; effects (subprocess invocations of the external Noddy
binary, history-file writes, parameter-log writes) are modelled as explicit
call traces; the mutable experiment object is modelled as an explicit state
threaded through the run loop (`Experiment.random_perturbation`, defined
outside this source file, is abstracted as a state-transition function); the
filesystem is modelled as a list of existing paths and an `os.walk` result is
modelled as a list of (directory, filenames) pairs.
-/

/-- Python `os.path.join a b` for the relative path arguments used in this
module: `join("", b) = b` and `join(a, "") = a ++ "/"`. -/
def pathJoin (a b : String) : String :=
  if a = "" then b else a ++ "/" ++ b

/-- Decimal digits of `n`, most significant first, computed with enough fuel to
terminate structurally (so that concrete instances evaluate by reduction). -/
def decChars : Nat → Nat → List Char
  | 0, _ => []
  | fuel + 1, n =>
    if n < 10 then [Nat.digitChar n]
    else decChars fuel (n / 10) ++ [Nat.digitChar (n % 10)]

/-- Decimal representation of a natural number, as printed by Python `"%d"`. -/
def decimalStr (n : Nat) : String := String.mk (decChars (n + 1) n)

/-- Python `"%04d" % n` (line 212): decimal digits of `n`, left-padded with
zeros to a width of at least 4. -/
def pad4 (n : Nat) : String :=
  String.mk (List.replicate (4 - (decimalStr n).length) '0') ++ decimalStr n

/-- Python substring test `needle in hay`. -/
def containsSub (needle hay : String) : Bool :=
  (List.range (hay.data.length + 1)).any fun i => needle.data.isPrefixOf (hay.data.drop i)

/-- Python `s.split('.')[0]` (lines 95 and 277): the part of `s` before the
first dot (all of `s` when `s` has no dot). -/
def splitHead (s : String) : String :=
  String.mk (s.data.takeWhile fun c => c != '.')

/-- One observable effect of the orchestrator: a history-file write, an
external simulator invocation (`pynoddy.compute_model`), a topology extraction
(`pynoddy.compute_topology`), or a parameter-change log write. -/
inductive Call where
  | writeHistory (path : String)
  | computeModel (historyFile : String) (outputPath : String)
  | computeTopology (outputPath : String)
  | writeParameterChanges (path : String)
deriving DecidableEq

/-- Per-worker run count computed in `generate_model_instances` (lines
178-181): `n = count / threads`, and thread 0 additionally receives
`count % threads`. Python 2 `/` on non-negative ints is floor division,
matching `Nat` division. -/
def chunkSize (count threads t : Nat) : Nat :=
  if t = 0 then count / threads + count % threads else count / threads

/-- The chunk sizes of all `threads` workers, in thread order. -/
def chunkSizes (count threads : Nat) : List Nat :=
  (List.range threads).map (chunkSize count threads)

/-- The run indices iterated by a single worker: Python `range(1, count+1)`
(line 210), i.e. `[1, 2, ..., count]`. -/
def runIndices (count : Nat) : List Nat :=
  List.range' 1 count

/-- The effect trace of one iteration of the single-worker loop of
`generate_model_instances` (lines 210-242) at run index `n`: write the
perturbed history to `<path>/<basename>_<%04d n>.his`, invoke the simulator
unconditionally on it, and invoke the topology extractor iff the string
`"TOPOLOGY"` occurs in `stype`. -/
def runCalls (basename path stype : String) (n : Nat) : List Call :=
  let outputpath := pathJoin path (basename ++ "_" ++ pad4 n)
  [Call.writeHistory (outputpath ++ ".his"),
   Call.computeModel (outputpath ++ ".his") outputpath] ++
    if containsSub "TOPOLOGY" stype then [Call.computeTopology outputpath] else []

/-- The single-worker loop of `generate_model_instances` (lines 209-242): for
`n` in `range(1, count+1)`, perturb the model state (`random_perturbation`,
abstracted as `perturb`), then emit the run's effects. Returns the final model
state and the concatenated effect trace. -/
def runLoop {S : Type} (perturb : S → S) (basename path stype : String)
    (s : S) (count : Nat) : S × List Call :=
  (runIndices count).foldl
    (fun acc n => (perturb acc.1, acc.2 ++ runCalls basename path stype n))
    (s, [])

/-- The `threads <= 1` execution of `generate_model_instances` (lines 150-156
and 209-248): join the node name onto the output path, run the loop, then
write the parameter-change log (`<changes>.csv`) unless disabled. -/
def runSingle {S : Type} (perturb : S → S) (nodename basename : String) (s : S)
    (path : String) (count : Nat) (stype : String) (changes : Option String) :
    S × List Call :=
  let nodePath := pathJoin path nodename
  let r := runLoop perturb basename nodePath stype s count
  (r.1, r.2 ++ match changes with
    | none => []
    | some c => [Call.writeParameterChanges (c ++ ".csv")])

/-- The `threads > 1` branch of `generate_model_instances` (lines 162-207):
each thread `t` receives the subdirectory `thread_<t>` of the node path, a deep
copy of `self`, `chunkSize count threads t` runs and the change log
`<changes>_thread<t>`. The spawned call re-enters `generate_model_instances`
with the default `threads = 1`, hence (line 156) joins the node name onto the
thread path a second time. Returns the (unchanged) state of `self` and each
thread's (final copy state, effect trace) pair. -/
def runMulti {S : Type} (perturb : S → S) (nodename basename : String) (s : S)
    (path : String) (count threads : Nat) (stype : String)
    (changes : Option String) : S × List (S × List Call) :=
  let nodePath := pathJoin path nodename
  (s,
    (List.range threads).map fun t =>
      let threadpath := pathJoin nodePath ("thread_" ++ decimalStr t)
      let changePath := changes.map fun c => c ++ "_thread" ++ decimalStr t
      runSingle perturb nodename basename s threadpath (chunkSize count threads t)
        stype changePath)

/-- Embeds `MonteCarlo.generate_model_instances` (lines 121-248). Returns the final
state of `self`, the effect trace produced by `self` itself, and the
per-thread results (final state of each thread's deep copy with its trace),
empty unless `threads > 1`. -/
def generate_model_instances {S : Type} (perturb : S → S)
    (nodename basename : String) (s : S) (path : String) (count : Nat)
    (stype : String) (threads : Nat) (changes : Option String) :
    S × List Call × List (S × List Call) :=
  if threads > 1 then
    let r := runMulti perturb nodename basename s path count threads stype changes
    (r.1, [], r.2)
  else
    let r := runSingle perturb nodename basename s path count stype changes
    (r.1, r.2, [])

/-- The `threads = 0` (worker) branch of
`generate_models_from_existing_histories` (lines 94-119): truncate the history
path at its first dot to get the output stem, invoke the simulator iff `force`
is set or `<stem>.g01` does not exist, and — when `"TOPOLOGY"` occurs in
`stype` — invoke the topology extractor iff `force` is set or `<stem>.g23`
does not exist. `fs` is the list of existing filesystem paths. -/
def existingHistRun (fs : List String) (force : Bool) (stype : String)
    (path : String) : List Call :=
  let output := splitHead path
  (if force || !(fs.contains (output ++ ".g01")) then
      [Call.computeModel path output]
    else []) ++
    if containsSub "TOPOLOGY" stype then
      if force || !(fs.contains (output ++ ".g23")) then
        [Call.computeTopology output]
      else []
    else []

/-- Embeds `MonteCarlo.generate_models_from_existing_histories` (lines 39-119) with
`threads >= 1`: walk the directory tree collecting every filename containing
`".his"` (lines 66-70), then process each collected history file with the
worker branch. `tree` is the `os.walk` result, `fs` the existing paths. -/
def generate_models_from_existing_histories (fs : List String)
    (tree : List (String × List String)) (force : Bool) (stype : String) :
    List (String × List Call) :=
  let hisFiles := tree.foldl
    (fun acc rf => acc ++ (rf.2.filter fun f => containsSub ".his" f).map (pathJoin rf.1))
    []
  hisFiles.map fun p => (p, existingHistRun fs force stype p)

/-- A loaded topology object, identified by the base path it was constructed
from (`NoddyTopology(base)` at line 282; its internals live outside this
source file). -/
structure NoddyTopology where
  base : String
deriving DecidableEq

/-- Embeds `MonteCarlo.load_topology_realisations` (lines 250-284): walk the tree,
and for every filename containing `".g23"` append a topology loaded from the
file's directory joined with the filename truncated at its first dot. -/
def load_topology_realisations (tree : List (String × List String)) :
    List NoddyTopology :=
  tree.foldl
    (fun topologies rf =>
      rf.2.foldl
        (fun acc f =>
          if containsSub ".g23" f then
            acc ++ [NoddyTopology.mk (pathJoin rf.1 (splitHead f))]
          else acc)
        topologies)
    []

/-- Specification-level description of the loader: one topology per matching
artifact, phrased as filter-and-map over the walked tree. Stated from the
spec's words for comparison with `load_topology_realisations`. -/
def loadTopologySpec (tree : List (String × List String)) : List NoddyTopology :=
  tree.flatMap fun rf =>
    (rf.2.filter fun f => containsSub ".g23" f).map fun f =>
      NoddyTopology.mk (pathJoin rf.1 (splitHead f))

/-- Embeds `MonteCarlo.load_noddy_realisations` (lines 286-304): prints an error
message and falls off the end, i.e. returns Python `None` instead of the list
of `NoddyOutput` objects its docstring promises. Result: (printed lines,
returned value). -/
def load_noddy_realisations (path : String) :
    List String × Option (List String) :=
  (["Error: load_noddy_realisations has not been implemented yet. Sorry."], none)

/-- The `parameters` argument of `MonteCarlo.__init__`: a csv file path or an
array of dictionaries (each a list of key/value pairs). -/
inductive MCParameters where
  | filePath (p : String)
  | dictArray (d : List (List (String × String)))
deriving DecidableEq

/-- Result of constructing a `MonteCarlo`: which parameter file was loaded (if
any), the stored base name, and the lines printed during construction. -/
structure MCInit where
  loadedParameterFile : Option String
  basename : String
  printed : List String
deriving DecidableEq

/-- Embeds `MonteCarlo.__init__` (lines 11-37): a string `parameters` argument is
loaded as a parameter file (`load_parameter_file` lives outside this source
file; the path is recorded); any other argument merely prints an error and
construction continues, storing the base name as if configuration had
succeeded. -/
def mcInit (parameters : MCParameters) (base_name : String) : MCInit :=
  match parameters with
  | MCParameters.filePath p =>
    { loadedParameterFile := some p, basename := base_name, printed := [] }
  | MCParameters.dictArray _ =>
    { loadedParameterFile := none, basename := base_name,
      printed := ["Error: parameter dictionares are not yet implemented"] }

/-- Python `os.makedirs` / `os.mkdir` on an unguarded call: raises
`FileExistsError` when the directory already exists, otherwise creates it. -/
def mkdirRaw (fs : List String) (d : String) : Except String (List String) :=
  if fs.contains d then Except.error "FileExistsError" else Except.ok (d :: fs)

/-- The guarded creation idiom of lines 159-160 and 171-172:
`if not os.path.isdir(p): os.makedirs(p)`. -/
def ensureDir (fs : List String) (d : String) : Except String (List String) :=
  if fs.contains d then Except.ok fs else mkdirRaw fs d

/-- The directory creations performed by `generate_model_instances`: the
node-level output directory (lines 158-160) and, when `threads > 1`, each
per-thread subdirectory (lines 169-172). -/
def setupDirs (fs : List String) (path nodename : String) (threads : Nat) :
    Except String (List String) :=
  let nodePath := pathJoin path nodename
  match ensureDir fs nodePath with
  | Except.error e => Except.error e
  | Except.ok fs1 =>
    if threads > 1 then
      (List.range threads).foldlM
        (fun f t => ensureDir f (pathJoin nodePath ("thread_" ++ decimalStr t))) fs1
    else Except.ok fs1

/-- The three distribution kinds of a parameter-spec row. -/
inductive DistType where
  | normal
  | vonmises
  | uniform
deriving DecidableEq

/-- One row of the parameter specification: the (event, parameter) pair being
varied, its distribution kind, mean, and dispersion. -/
structure ParamRow where
  event : String
  parameter : String
  dtype : DistType
  mean : ℚ
  dispersion : ℚ

/-- Modelled from the spec: the distribution actually drawn from for a row.
The sampler (`Experiment.random_perturbation` and `load_parameter_file`) is
not part of this source file; per the spec, normal and von Mises draws use the
configured mean/dispersion and uniform draws use mean ± dispersion as bounds. -/
inductive Draw where
  | normalDraw (mean stdev : ℚ)
  | vonmisesDraw (mean dispersion : ℚ)
  | uniformDraw (lo hi : ℚ)
deriving DecidableEq

/-- Modelled from the spec: the sampling distribution chosen for a parameter
row. -/
def sampleDist (row : ParamRow) : Draw :=
  match row.dtype with
  | DistType.normal => Draw.normalDraw row.mean row.dispersion
  | DistType.vonmises => Draw.vonmisesDraw row.mean row.dispersion
  | DistType.uniform =>
    Draw.uniformDraw (row.mean - row.dispersion) (row.mean + row.dispersion)

/-- Modelled from the spec: a uniform draw on `[lo, hi]`, realised from a unit
random source `u ∈ [0, 1]`. -/
def uniformSample (lo hi u : ℚ) : ℚ := lo + (hi - lo) * u

/-- Recogniser for simulator invocations in a trace. -/
def isComputeModel : Call → Bool
  | Call.computeModel _ _ => true
  | _ => false

/-- Recogniser for topology-extractor invocations in a trace. -/
def isComputeTopology : Call → Bool
  | Call.computeTopology _ => true
  | _ => false

/-- Number of simulator invocations in a trace. -/
def countComputeModel (calls : List Call) : Nat :=
  (calls.filter isComputeModel).length

/-- The history-file paths written by a trace, in order. -/
def writeHistoryPaths (calls : List Call) : List String :=
  calls.filterMap fun c =>
    match c with
    | Call.writeHistory p => some p
    | _ => none

/-!
Helper lemmas.
-/

theorem decChars_eq (fuel : Nat) : ∀ n ≤ fuel,
    decChars (fuel + 1) n =
      if n = 0 then ['0'] else ((Nat.digits 10 n).map Nat.digitChar).reverse := by
  induction fuel with
  | zero =>
    intro n hn
    interval_cases n
    decide
  | succ fuel ih =>
    intro n hn
    by_cases h10 : n < 10
    · rcases Nat.eq_zero_or_pos n with h0 | h0
      · subst h0; simp [decChars, Nat.digitChar]
      · have hd : Nat.digits 10 n = [n] := by
          rw [Nat.digits_def' (by norm_num : 1 < 10) h0]
          rw [Nat.mod_eq_of_lt h10, Nat.div_eq_of_lt h10]
          simp
        have hne : n ≠ 0 := by omega
        simp [decChars, h10, hd, hne]
    · have hpos : 0 < n := by omega
      have hdiv : n / 10 ≤ fuel := by
        have : n / 10 < n := Nat.div_lt_self hpos (by norm_num)
        omega
      have hdivpos : n / 10 ≠ 0 := by
        have := Nat.div_pos (Nat.le_of_not_lt h10) (by norm_num : (0 : Nat) < 10)
        omega
      have hrec : decChars (fuel + 1 + 1) n =
          decChars (fuel + 1) (n / 10) ++ [Nat.digitChar (n % 10)] := by
        rw [decChars]
        simp [h10]
      rw [hrec, ih (n / 10) hdiv]
      rw [Nat.digits_def' (by norm_num : 1 < 10) hpos]
      have hne : n ≠ 0 := by omega
      simp [hdivpos, hne]

theorem decimalStr_eq (n : Nat) :
    decimalStr n =
      if n = 0 then "0"
      else String.mk (((Nat.digits 10 n).map Nat.digitChar).reverse) := by
  rw [decimalStr, decChars_eq n n le_rfl]
  by_cases h : n = 0 <;> simp [h]

theorem digitChar_injOn : ∀ d1 < 10, ∀ d2 < 10,
    Nat.digitChar d1 = Nat.digitChar d2 → d1 = d2 := by decide

theorem map_digitChar_inj : ∀ l1 l2 : List Nat, (∀ d ∈ l1, d < 10) →
    (∀ d ∈ l2, d < 10) → l1.map Nat.digitChar = l2.map Nat.digitChar → l1 = l2 := by
  intro l1
  induction l1 with
  | nil =>
    intro l2 _ _ h
    cases l2 with
    | nil => rfl
    | cons b t => simp at h
  | cons a t1 ih =>
    intro l2 h1 h2 h
    cases l2 with
    | nil => simp at h
    | cons b t2 =>
      simp only [List.map_cons, List.cons.injEq] at h
      have ha : a = b :=
        digitChar_injOn a (h1 a (by simp)) b (h2 b (by simp)) h.1
      have ht : t1 = t2 := by
        refine ih t2 (fun d hd => h1 d (by simp [hd])) (fun d hd => h2 d (by simp [hd])) h.2
      rw [ha, ht]

theorem decimalStr_injective : Function.Injective decimalStr := by
  intro m n h
  rw [decimalStr_eq m, decimalStr_eq n] at h
  by_cases hm : m = 0 <;> by_cases hn : n = 0
  · rw [hm, hn]
  · exfalso
    rw [if_pos hm, if_neg hn] at h
    have hdata : ['0'] = ((Nat.digits 10 n).map Nat.digitChar).reverse :=
      congrArg String.data h
    have hmap : (Nat.digits 10 n).map Nat.digitChar = ['0'] := by
      have := congrArg List.reverse hdata
      simpa using this.symm
    cases hd : Nat.digits 10 n with
    | nil => rw [hd] at hmap; simp at hmap
    | cons d tl =>
      rw [hd] at hmap
      simp only [List.map_cons, List.cons.injEq] at hmap
      have htl : tl = [] := List.map_eq_nil_iff.mp hmap.2
      have hdlt : d < 10 :=
        Nat.digits_lt_base (by norm_num) (by rw [hd]; simp)
      have hd0 : d = 0 := by
        refine digitChar_injOn d hdlt 0 (by norm_num) ?_
        rw [hmap.1]; rfl
      have : n = 0 := by
        have hofs := Nat.ofDigits_digits 10 n
        rw [hd, htl, hd0] at hofs
        simpa using hofs.symm
      exact hn this
  · exfalso
    rw [if_neg hm, if_pos hn] at h
    have hdata : ((Nat.digits 10 m).map Nat.digitChar).reverse = ['0'] :=
      congrArg String.data h
    have hmap : (Nat.digits 10 m).map Nat.digitChar = ['0'] := by
      have := congrArg List.reverse hdata
      simpa using this
    cases hd : Nat.digits 10 m with
    | nil => rw [hd] at hmap; simp at hmap
    | cons d tl =>
      rw [hd] at hmap
      simp only [List.map_cons, List.cons.injEq] at hmap
      have htl : tl = [] := List.map_eq_nil_iff.mp hmap.2
      have hdlt : d < 10 :=
        Nat.digits_lt_base (by norm_num) (by rw [hd]; simp)
      have hd0 : d = 0 := by
        refine digitChar_injOn d hdlt 0 (by norm_num) ?_
        rw [hmap.1]; rfl
      have : m = 0 := by
        have hofs := Nat.ofDigits_digits 10 m
        rw [hd, htl, hd0] at hofs
        simpa using hofs.symm
      exact hm this
  · rw [if_neg hm, if_neg hn] at h
    have hdata := congrArg String.data h
    simp only [] at hdata
    have hrev : ((Nat.digits 10 m).map Nat.digitChar).reverse =
        ((Nat.digits 10 n).map Nat.digitChar).reverse := hdata
    have hmap : (Nat.digits 10 m).map Nat.digitChar =
        (Nat.digits 10 n).map Nat.digitChar := by
      have := congrArg List.reverse hrev
      simpa using this
    have hdig : Nat.digits 10 m = Nat.digits 10 n :=
      map_digitChar_inj _ _
        (fun d hd => Nat.digits_lt_base (by norm_num) hd)
        (fun d hd => Nat.digits_lt_base (by norm_num) hd) hmap
    exact Nat.digits.injective 10 hdig

theorem string_append_left_cancel {a b c : String} (h : a ++ b = a ++ c) :
    b = c := by
  have hd := congrArg String.data h
  rw [String.data_append, String.data_append] at hd
  exact String.ext (List.append_cancel_left hd)

theorem threadDir_injective {t1 t2 : Nat}
    (h : "thread_" ++ decimalStr t1 = "thread_" ++ decimalStr t2) : t1 = t2 :=
  decimalStr_injective (string_append_left_cancel h)

theorem pathJoin_right_inj {a b c : String} (h : pathJoin a b = pathJoin a c) :
    b = c := by
  by_cases ha : a = ""
  · simpa [pathJoin, ha] using h
  · rw [pathJoin, pathJoin, if_neg ha, if_neg ha] at h
    exact string_append_left_cancel h

theorem decimalStr_length_le (n : Nat) (h : n ≤ 9999) :
    (decimalStr n).length ≤ 4 := by
  rw [decimalStr_eq]
  by_cases h0 : n = 0
  · subst h0; decide
  · rw [if_neg h0]
    have hlen : (Nat.digits 10 n).length = Nat.log 10 n + 1 :=
      Nat.digits_len 10 n (by norm_num) h0
    have hlog : Nat.log 10 n < 4 := by
      rw [← Nat.lt_pow_iff_log_lt (by norm_num) h0]
      norm_num
      omega
    rw [String.length_mk]
    simp [hlen]
    omega

theorem pad4_length (n : Nat) (h : n ≤ 9999) : (pad4 n).length = 4 := by
  have hle := decimalStr_length_le n h
  rw [pad4, String.length_append, String.length_mk, List.length_replicate]
  omega

theorem runIndices_succ (count : Nat) :
    runIndices (count + 1) = runIndices count ++ [1 + count] := by
  simpa [runIndices] using @List.range'_concat 1 1 count

theorem runLoop_eq {S : Type} (perturb : S → S) (basename path stype : String)
    (s : S) (count : Nat) :
    runLoop perturb basename path stype s count =
      (perturb^[count] s,
       (runIndices count).flatMap (runCalls basename path stype)) := by
  induction count with
  | zero => simp [runLoop, runIndices]
  | succ c ih =>
    have h1 : runLoop perturb basename path stype s (c + 1) =
        (perturb (runLoop perturb basename path stype s c).1,
         (runLoop perturb basename path stype s c).2 ++
           runCalls basename path stype (1 + c)) := by
      rw [runLoop, runLoop, runIndices_succ, List.foldl_append]
      simp
    rw [h1, ih, runIndices_succ]
    simp [Function.iterate_succ_apply', List.flatMap_append]

theorem countComputeModel_append (a b : List Call) :
    countComputeModel (a ++ b) = countComputeModel a + countComputeModel b := by
  simp [countComputeModel, List.filter_append]

theorem countComputeModel_runCalls (basename path stype : String) (n : Nat) :
    countComputeModel (runCalls basename path stype n) = 1 := by
  by_cases h : containsSub "TOPOLOGY" stype <;>
    simp [runCalls, h, countComputeModel, isComputeModel]

theorem countComputeModel_flatMap (basename path stype : String)
    (l : List Nat) :
    countComputeModel (l.flatMap (runCalls basename path stype)) = l.length := by
  induction l with
  | nil => simp [countComputeModel]
  | cons a t ih =>
    simp [List.flatMap_cons, countComputeModel_append,
      countComputeModel_runCalls, ih]
    omega

theorem writeHistoryPaths_append (a b : List Call) :
    writeHistoryPaths (a ++ b) = writeHistoryPaths a ++ writeHistoryPaths b := by
  simp [writeHistoryPaths]

theorem writeHistoryPaths_runCalls (basename path stype : String) (n : Nat) :
    writeHistoryPaths (runCalls basename path stype n) =
      [pathJoin path (basename ++ "_" ++ pad4 n) ++ ".his"] := by
  by_cases h : containsSub "TOPOLOGY" stype <;>
    simp [runCalls, h, writeHistoryPaths]

theorem writeHistoryPaths_flatMap (basename path stype : String)
    (l : List Nat) :
    writeHistoryPaths (l.flatMap (runCalls basename path stype)) =
      l.map fun n => pathJoin path (basename ++ "_" ++ pad4 n) ++ ".his" := by
  induction l with
  | nil => simp [writeHistoryPaths]
  | cons a t ih =>
    simp [List.flatMap_cons, writeHistoryPaths_append,
      writeHistoryPaths_runCalls, ih]

theorem runSingle_trace {S : Type} (perturb : S → S) (nodename basename : String)
    (s : S) (path : String) (count : Nat) (stype : String)
    (changes : Option String) :
    (runSingle perturb nodename basename s path count stype changes).2 =
      (runIndices count).flatMap (runCalls basename (pathJoin path nodename) stype) ++
        match changes with
        | none => []
        | some c => [Call.writeParameterChanges (c ++ ".csv")] := by
  cases changes <;> simp [runSingle, runLoop_eq]

theorem runSingle_state {S : Type} (perturb : S → S) (nodename basename : String)
    (s : S) (path : String) (count : Nat) (stype : String)
    (changes : Option String) :
    (runSingle perturb nodename basename s path count stype changes).1 =
      perturb^[count] s := by
  cases changes <;> simp [runSingle, runLoop_eq]

theorem writeHistoryPaths_runSingle {S : Type} (perturb : S → S)
    (nodename basename : String) (s : S) (path : String) (count : Nat)
    (stype : String) (changes : Option String) :
    writeHistoryPaths (runSingle perturb nodename basename s path count stype changes).2 =
      (runIndices count).map fun n =>
        pathJoin (pathJoin path nodename) (basename ++ "_" ++ pad4 n) ++ ".his" := by
  rw [runSingle_trace, writeHistoryPaths_append, writeHistoryPaths_flatMap]
  cases changes <;> simp [writeHistoryPaths]

theorem anyTopology_runCalls (basename path stype : String) (n : Nat) :
    (runCalls basename path stype n).any isComputeTopology =
      containsSub "TOPOLOGY" stype := by
  cases h : containsSub "TOPOLOGY" stype <;>
    simp [runCalls, h, isComputeTopology]

theorem anyTopology_flatMap (basename path stype : String) (l : List Nat) :
    (l.flatMap (runCalls basename path stype)).any isComputeTopology =
      (!l.isEmpty && containsSub "TOPOLOGY" stype) := by
  induction l with
  | nil => simp
  | cons a t ih =>
    rw [List.flatMap_cons, List.any_append, anyTopology_runCalls, ih]
    cases h : containsSub "TOPOLOGY" stype <;> simp [h]

theorem foldl_append_eq_flatMap {α β : Type} (h : α → List β)
    (l : List α) : ∀ acc : List β,
    l.foldl (fun a x => a ++ h x) acc = acc ++ l.flatMap h := by
  induction l with
  | nil => intro acc; simp
  | cons x t ih => intro acc; simp [List.foldl_cons, ih, List.flatMap_cons]

theorem foldl_filter_append {α β : Type} (p : α → Bool) (g : α → β)
    (files : List α) : ∀ acc : List β,
    files.foldl (fun a f => if p f then a ++ [g f] else a) acc =
      acc ++ (files.filter p).map g := by
  induction files with
  | nil => intro acc; simp
  | cons f t ih =>
    intro acc
    by_cases h : p f <;> simp [List.foldl_cons, h, ih]

theorem ensureDir_ok (fs : List String) (d : String) :
    ∃ fs2, ensureDir fs d = Except.ok fs2 := by
  unfold ensureDir mkdirRaw
  by_cases h : fs.contains d
  · exact ⟨fs, by rw [if_pos h]⟩
  · exact ⟨d :: fs, by rw [if_neg h, if_neg h]⟩

theorem foldlM_except_ok {α σ ε : Type} (step : σ → α → Except ε σ)
    (hstep : ∀ f a, ∃ f2, step f a = Except.ok f2) (l : List α) :
    ∀ f0 : σ, ∃ f2, l.foldlM step f0 = Except.ok f2 := by
  induction l with
  | nil => intro f0; exact ⟨f0, rfl⟩
  | cons a t ih =>
    intro f0
    obtain ⟨f1, h1⟩ := hstep f0 a
    obtain ⟨f2, h2⟩ := ih f1
    refine ⟨f2, ?_⟩
    rw [List.foldlM_cons, h1]
    simpa using h2

theorem sum_map_const_on {α : Type} (l : List α) (f : α → Nat) (c : Nat)
    (h : ∀ x ∈ l, f x = c) : (l.map f).sum = l.length * c := by
  induction l with
  | nil => simp
  | cons a t ih =>
    simp only [List.map_cons, List.sum_cons, List.length_cons]
    rw [h a (by simp), ih fun x hx => h x (by simp [hx])]
    ring

/-!
Claim theorems.
-/

/-- C1: for every run count `count ≥ 1` and worker count `threads ≥ 1`, the
per-worker chunk sizes computed by `generate_model_instances` sum exactly to
`count`; thread 0 receives `count / threads + count % threads` and every other
thread exactly `count / threads`, so the first worker and only the first
worker receives the remainder; in particular `count = 10, threads = 3` yields
chunk sizes `[4, 3, 3]` and worker 0 processes run indices 1 through 4. -/
theorem C1_partition (count threads : Nat) (hthreads : 1 ≤ threads)
    (hcount : 1 ≤ count) :
    (chunkSizes count threads).sum = count ∧
    chunkSize count threads 0 = count / threads + count % threads ∧
    (∀ t, t ≠ 0 → chunkSize count threads t = count / threads) ∧
    chunkSizes 10 3 = [4, 3, 3] ∧
    runIndices (chunkSize 10 3 0) = [1, 2, 3, 4] := by
  refine ⟨?_, by simp [chunkSize], fun t ht => by simp [chunkSize, ht],
    by decide, by decide⟩
  rcases threads with _ | w
  · exact absurd hthreads (by omega)
  · rw [chunkSizes, List.range_succ_eq_map, List.map_cons, List.map_map,
      List.sum_cons]
    rw [sum_map_const_on (List.range w) _ (count / (w + 1))
      fun x hx => by simp [chunkSize]]
    rw [List.length_range]
    have hdm := Nat.div_add_mod count (w + 1)
    have hexp : (w + 1) * (count / (w + 1)) =
        w * (count / (w + 1)) + count / (w + 1) := by ring
    have h0 : chunkSize count (w + 1) 0 =
        count / (w + 1) + count % (w + 1) := by simp [chunkSize]
    rw [h0]
    linarith

/-- C1 witness at `count = 10`, `threads = 3`. -/
theorem C1_partition_witness :
    (chunkSizes 10 3).sum = 10 ∧ chunkSizes 10 3 = [4, 3, 3] :=
  ⟨(C1_partition 10 3 (by decide) (by decide)).1,
   (C1_partition 10 3 (by decide) (by decide)).2.2.2.1⟩

/-- C3: a single worker of `generate_model_instances` processes run indices
`1, 2, ..., count` — a contiguous sequence of length `count` starting at 1, in
strictly increasing order — and the history file written for run `n` carries
the index `n` in its name (`<basename>_<%04d n>.his`). -/
theorem C3_run_ordering {S : Type} (perturb : S → S)
    (basename path stype : String) (s : S) (count : Nat) (hcount : 1 ≤ count) :
    List.Pairwise (· < ·) (runIndices count) ∧
    (runIndices count).length = count ∧
    (∀ i, i < count → (runIndices count)[i]? = some (1 + i)) ∧
    (runIndices count).head? = some 1 ∧
    writeHistoryPaths (runLoop perturb basename path stype s count).2 =
      (runIndices count).map fun n =>
        pathJoin path (basename ++ "_" ++ pad4 n) ++ ".his" := by
  refine ⟨List.pairwise_lt_range' 1 count, by simp [runIndices], ?_, ?_, ?_⟩
  · intro i hi
    rw [runIndices]
    rw [List.getElem?_range' 1 1 hi]
    simp
  · rw [runIndices, List.head?_range']
    rw [if_neg (by omega)]
  · rw [runLoop_eq]
    exact writeHistoryPaths_flatMap basename path stype (runIndices count)

/-- C3 witness at `count = 3` with a concrete perturbation on `Nat`. -/
theorem C3_run_ordering_witness :
    (runIndices 3).head? = some 1 ∧
    writeHistoryPaths (runLoop (fun s => s + 1) "out" "dir" "BLOCK" (0 : Nat) 3).2 =
      (runIndices 3).map fun n => pathJoin "dir" ("out" ++ "_" ++ pad4 n) ++ ".his" :=
  ⟨(C3_run_ordering (fun s => s + 1) "out" "dir" "BLOCK" (0 : Nat) 3 (by decide)).2.2.2.1,
   (C3_run_ordering (fun s => s + 1) "out" "dir" "BLOCK" (0 : Nat) 3 (by decide)).2.2.2.2⟩

/-- C4: the claim requires every not-implemented path to fail loudly (raise or
return an explicit error value). The code instead prints a message and
continues: `load_noddy_realisations` returns `None` (no result), contradicting
its own docstring, which promises a list of `NoddyOutput` objects, and
constructing a `MonteCarlo` with a dictionary-array `parameters` argument
completes construction normally with no parameters loaded. This theorem
evaluates the code at the failing inputs. -/
theorem C4_stub_behaviour :
    (load_noddy_realisations "models").2 = none ∧
    (load_noddy_realisations "models").1 =
      ["Error: load_noddy_realisations has not been implemented yet. Sorry."] ∧
    mcInit (MCParameters.dictArray []) "out" =
      { loadedParameterFile := none, basename := "out",
        printed := ["Error: parameter dictionares are not yet implemented"] } :=
  ⟨rfl, rfl, rfl⟩

/-- C6: every directory creation in `generate_model_instances` is guarded by
an existence check, so `setupDirs` never raises an already-exists error — for
any pre-existing filesystem contents — even though the underlying unguarded
`mkdir` does raise on an existing directory. -/
theorem C6_mkdir_guarded (fs : List String) (path nodename : String)
    (threads : Nat) :
    (∃ fs2, setupDirs fs path nodename threads = Except.ok fs2) ∧
    (∀ fsx : List String, ∀ d : String, fsx.contains d = true →
      mkdirRaw fsx d = Except.error "FileExistsError") := by
  constructor
  · obtain ⟨fs1, h1⟩ := ensureDir_ok fs (pathJoin path nodename)
    by_cases ht : threads > 1
    · obtain ⟨fs2, h2⟩ := foldlM_except_ok
        (fun f t => ensureDir f (pathJoin (pathJoin path nodename)
          ("thread_" ++ decimalStr t)))
        (fun f t => ensureDir_ok f _) (List.range threads) fs1
      refine ⟨fs2, ?_⟩
      rw [setupDirs, h1]
      simpa [ht] using h2
    · refine ⟨fs1, ?_⟩
      rw [setupDirs, h1]
      simp [ht]
  · intro fsx d hd
    rw [mkdirRaw, if_pos hd]

/-- C6 witness: a fully pre-existing directory tree is tolerated, while the
unguarded mkdir on the same state errors. -/
theorem C6_mkdir_guarded_witness :
    (∃ fs2, setupDirs ["out/node", "out/node/thread_0", "out/node/thread_1"]
      "out" "node" 2 = Except.ok fs2) ∧
    mkdirRaw ["out/node"] "out/node" = Except.error "FileExistsError" :=
  ⟨(C6_mkdir_guarded ["out/node", "out/node/thread_0", "out/node/thread_1"]
      "out" "node" 2).1,
   (C6_mkdir_guarded [] "" "" 0).2 ["out/node"] "out/node" (by decide)⟩

theorem loader_foldl_eq (l : List (String × List String)) :
    ∀ acc : List NoddyTopology,
    l.foldl
      (fun topologies rf =>
        rf.2.foldl
          (fun acc f =>
            if containsSub ".g23" f then
              acc ++ [NoddyTopology.mk (pathJoin rf.1 (splitHead f))]
            else acc)
          topologies) acc =
      acc ++ l.flatMap fun rf =>
        (rf.2.filter fun f => containsSub ".g23" f).map fun f =>
          NoddyTopology.mk (pathJoin rf.1 (splitHead f)) := by
  induction l with
  | nil => intro acc; simp
  | cons rf t ih =>
    intro acc
    rw [List.foldl_cons, foldl_filter_append, ih, List.flatMap_cons,
      List.append_assoc]

theorem length_flatMap_eq {α β : Type} (l : List α) (f : α → List β) :
    (l.flatMap f).length = (l.map fun a => (f a).length).sum := by
  induction l with
  | nil => simp
  | cons a t ih => simp [List.flatMap_cons, ih]

/-- C7: `load_topology_realisations` walks the entire tree and returns, as a
list, exactly one loaded topology per file whose name contains `".g23"`, each
loaded from the file's directory joined with the filename truncated at its
first dot: the fold in the code equals the filter-and-map reading of the spec,
and the result length is the total number of matching files. -/
theorem C7_loader (tree : List (String × List String)) :
    load_topology_realisations tree = loadTopologySpec tree ∧
    (load_topology_realisations tree).length =
      (tree.map fun rf => (rf.2.filter fun f => containsSub ".g23" f).length).sum := by
  have hmain : load_topology_realisations tree = loadTopologySpec tree := by
    rw [load_topology_realisations, loadTopologySpec, loader_foldl_eq tree []]
    simp
  refine ⟨hmain, ?_⟩
  rw [hmain, loadTopologySpec, length_flatMap_eq]
  simp

/-- C8: modelled from the spec (the sampler lives outside this source file): a
`uniform` row is drawn uniformly with bounds mean minus dispersion and mean
plus dispersion, `normal` and `vonmises` rows use the configured mean and
dispersion; the example row with mean 45 and dispersion 10 yields draws
confined to `[35, 55]`. -/
theorem C8_sampling (e p : String) (m d u : ℚ) (h0 : 0 ≤ u) (h1 : u ≤ 1) :
    sampleDist ⟨e, p, DistType.uniform, m, d⟩ = Draw.uniformDraw (m - d) (m + d) ∧
    sampleDist ⟨e, p, DistType.normal, m, d⟩ = Draw.normalDraw m d ∧
    sampleDist ⟨e, p, DistType.vonmises, m, d⟩ = Draw.vonmisesDraw m d ∧
    sampleDist ⟨e, p, DistType.uniform, 45, 10⟩ = Draw.uniformDraw 35 55 ∧
    35 ≤ uniformSample 35 55 u ∧ uniformSample 35 55 u ≤ 55 := by
  refine ⟨rfl, rfl, rfl, by norm_num [sampleDist], ?_, ?_⟩
  · rw [uniformSample]
    nlinarith
  · rw [uniformSample]
    nlinarith

/-- C8 witness at the midpoint draw `u = 1/2` of the example row. -/
theorem C8_sampling_witness :
    35 ≤ uniformSample 35 55 (1 / 2) ∧ uniformSample 35 55 (1 / 2) ≤ 55 :=
  ⟨(C8_sampling "E1" "Dip" 45 10 (1 / 2) (by norm_num) (by norm_num)).2.2.2.2.1,
   (C8_sampling "E1" "Dip" 45 10 (1 / 2) (by norm_num) (by norm_num)).2.2.2.2.2⟩

/-- C2 counterexample: the claim asserts that the skip-unless-missing-or-forced
policy also governs the per-run loop of `generate_model_instances`, so that a
re-run over pre-existing outputs performs zero simulator invocations. That
loop has no force flag and consults no filesystem state at all: with
`count = 1` it performs exactly one `compute_model` invocation, not zero,
whatever outputs exist. -/
theorem C2_counterexample :
    countComputeModel
      (runLoop (fun s => s + 1 : Nat → Nat) "out" "dir" "BLOCK" 0 1).2 = 1 := by
  decide

/-- C2 amended: in `generate_models_from_existing_histories` the simulator is
invoked for a run iff the force flag is set or the run's `.g01` output is
absent (zero invocations on a re-run over complete outputs, one per history
file when forced); the per-run loop of `generate_model_instances`, by
contrast, performs exactly `count` simulator invocations unconditionally — it
has no skip logic. -/
theorem C2_skip_policy {S : Type} (fs : List String) (force : Bool)
    (stype path : String) (perturb : S → S) (basename outdir : String) (s : S)
    (count : Nat) (tree : List (String × List String)) :
    countComputeModel (existingHistRun fs force stype path) =
      (if force || !(fs.contains (splitHead path ++ ".g01")) then 1 else 0) ∧
    (∀ pr ∈ generate_models_from_existing_histories fs tree force stype,
      countComputeModel pr.2 =
        if force || !(fs.contains (splitHead pr.1 ++ ".g01")) then 1 else 0) ∧
    countComputeModel (runLoop perturb basename outdir stype s count).2 = count := by
  have hone : ∀ q : String,
      countComputeModel (existingHistRun fs force stype q) =
        if force || !(fs.contains (splitHead q ++ ".g01")) then 1 else 0 := by
    intro q
    simp only [existingHistRun]
    rw [countComputeModel_append]
    have h2 : countComputeModel
        (if containsSub "TOPOLOGY" stype then
          if force || !(fs.contains (splitHead q ++ ".g23")) then
            [Call.computeTopology (splitHead q)]
          else []
        else []) = 0 := by
      split
      · split <;> simp [countComputeModel, isComputeModel]
      · simp [countComputeModel]
    rw [h2]
    split <;> simp [countComputeModel, isComputeModel]
  refine ⟨hone path, ?_, ?_⟩
  · intro pr hpr
    rw [generate_models_from_existing_histories] at hpr
    obtain ⟨q, hq, rfl⟩ := List.mem_map.mp hpr
    exact hone q
  · rw [runLoop_eq]
    dsimp only
    rw [countComputeModel_flatMap]
    simp [runIndices]

/-- C2 witness: a history file whose `.g01` output already exists is skipped
when the force flag is unset. -/
theorem C2_skip_policy_witness :
    countComputeModel (existingHistRun ["h.g01"] false "BLOCK" "h.his") = 0 := by
  have h := (C2_skip_policy ["h.g01"] false "BLOCK" "h.his"
      (fun s => s + 1 : Nat → Nat) "out" "dir" 0 0 [("", ["h.his"])]).2.1
      ("h.his", existingHistRun ["h.g01"] false "BLOCK" "h.his") (by decide)
  exact h.trans (by decide)

/-- C5 counterexample: (i) the run index is `%04d`-formatted, i.e. padded to a
minimum of four digits, not exactly four — index 10000 keeps five digits; and
(ii) in the multithreaded path the worker call re-joins the node name under
its `thread_<t>` directory, so on a node named `node1` the history of run 1 of
thread 0 is written at `out/node1/thread_0/node1/m_0001.his`, not at the
claimed `out/node1/thread_0/m_0001.his`. -/
theorem C5_counterexample :
    (pad4 10000).length ≠ 4 ∧
    ((runMulti (fun s => s + 1 : Nat → Nat) "node1" "m" 0 "out" 1 2 "BLOCK"
        none).2.map fun r => writeHistoryPaths r.2) =
      [["out/node1/thread_0/node1/m_0001.his"], []] ∧
    "out/node1/thread_0/node1/m_0001.his" ≠ "out/node1/thread_0/m_0001.his" :=
  ⟨by decide, by decide, by decide⟩

/-- C5 amended: run `n` of a single-worker invocation writes its history to
`<path>/<node_name>/<base_name>_<%04d n>.his`; with `threads > 1`, thread `t`
writes run `n` to
`<path>/<node_name>/thread_<t>/<node_name>/<base_name>_<%04d n>.his` (the node
component recurs inside the thread directory because the worker call re-joins
it), and the `%04d` index is exactly four digits whenever `n ≤ 9999`. -/
theorem C5_layout {S : Type} (perturb : S → S) (nodename basename : String)
    (s : S) (path stype : String) (changes : Option String)
    (count threads : Nat) :
    (∀ n, n ≤ 9999 → (pad4 n).length = 4) ∧
    writeHistoryPaths
        (runSingle perturb nodename basename s path count stype changes).2 =
      ((runIndices count).map fun n =>
        pathJoin (pathJoin path nodename) (basename ++ "_" ++ pad4 n) ++ ".his") ∧
    ((runMulti perturb nodename basename s path count threads stype changes).2.map
        fun r => writeHistoryPaths r.2) =
      (List.range threads).map fun t =>
        (runIndices (chunkSize count threads t)).map fun n =>
          pathJoin (pathJoin (pathJoin (pathJoin path nodename)
              ("thread_" ++ decimalStr t)) nodename)
            (basename ++ "_" ++ pad4 n) ++ ".his" := by
  refine ⟨fun n hn => pad4_length n hn,
    writeHistoryPaths_runSingle perturb nodename basename s path count stype changes, ?_⟩
  simp only [runMulti]
  rw [List.map_map]
  refine List.map_congr_left fun t ht => ?_
  exact writeHistoryPaths_runSingle perturb nodename basename s _
    (chunkSize count threads t) stype _

/-- C5 witness: single-worker run 1 on node `node1` and the in-range padding. -/
theorem C5_layout_witness :
    (pad4 1).length = 4 ∧
    writeHistoryPaths (runSingle (fun s => s + 1 : Nat → Nat) "node1" "m" 0
      "out" 1 "BLOCK" none).2 = ["out/node1/m_0001.his"] := by
  have h := C5_layout (fun s => s + 1 : Nat → Nat) "node1" "m" 0 "out" "BLOCK"
    none 1 2
  exact ⟨h.1 1 (by decide), (h.2.1).trans (by decide)⟩

/-- C9: with more than one worker, every thread receives its own distinct
`thread_<t>` subdirectory and an independent deep copy of the experiment
state, and the calling object's own state is left unchanged by the
multithreaded run; in the single-worker path the object's own state is mutated
in place, ending as `count` successive perturbations of the initial state. -/
theorem C9_isolation {S : Type} (perturb : S → S) (nodename basename : String)
    (s : S) (path stype : String) (changes : Option String)
    (count threads : Nat) (ht : threads > 1) :
    (runMulti perturb nodename basename s path count threads stype changes).1 = s ∧
    (generate_model_instances perturb nodename basename s path count stype
      threads changes).1 = s ∧
    (∀ t1 t2 : Nat, t1 ≠ t2 →
      pathJoin (pathJoin path nodename) ("thread_" ++ decimalStr t1) ≠
        pathJoin (pathJoin path nodename) ("thread_" ++ decimalStr t2)) ∧
    ((runMulti perturb nodename basename s path count threads stype
        changes).2.map Prod.fst) =
      ((List.range threads).map fun t => perturb^[chunkSize count threads t] s) ∧
    (runSingle perturb nodename basename s path count stype changes).1 =
      perturb^[count] s := by
  refine ⟨rfl, ?_, ?_, ?_,
    runSingle_state perturb nodename basename s path count stype changes⟩
  · rw [generate_model_instances, if_pos ht]
    exact rfl
  · intro t1 t2 hne h
    exact hne (threadDir_injective (pathJoin_right_inj h))
  · simp only [runMulti]
    rw [List.map_map]
    refine List.map_congr_left fun t ht2 => ?_
    exact runSingle_state perturb nodename basename s _
      (chunkSize count threads t) stype _

/-- C9 witness at `threads = 2` with a concrete state. -/
theorem C9_isolation_witness :
    (runMulti (fun s => s + 1 : Nat → Nat) "node1" "m" 5 "out" 10 2 "BLOCK"
      none).1 = 5 ∧
    pathJoin (pathJoin "out" "node1") ("thread_" ++ decimalStr 0) ≠
      pathJoin (pathJoin "out" "node1") ("thread_" ++ decimalStr 1) := by
  have h := C9_isolation (fun s => s + 1 : Nat → Nat) "node1" "m" 5 "out"
    "BLOCK" none 10 2 (by decide)
  exact ⟨h.1, h.2.2.1 0 1 (by decide)⟩

/-- C10 counterexample: in `generate_models_from_existing_histories`, the
string `"TOPOLOGY"` occurring in `sim_type` is necessary but not sufficient
for a topology invocation: with the force flag unset and the `.g23` artifact
already present, the topology extractor is not invoked (the run's whole trace
is empty), refuting the claimed iff for that function. -/
theorem C10_counterexample :
    containsSub "TOPOLOGY" "TOPOLOGY" = true ∧
    existingHistRun ["out.g01", "out.g23"] false "TOPOLOGY" "out.his" = [] :=
  ⟨by decide, by decide⟩

/-- C10 amended: the per-run loop of `generate_model_instances` invokes
`compute_topology` iff `"TOPOLOGY"` occurs in `sim_type` and at least one run
executes; `generate_models_from_existing_histories` invokes it iff
additionally the force flag is set or the `.g23` artifact is absent; and of
the seven documented modes only `"TOPOLOGY"` itself contains the substring
`"TOPOLOGY"` — in particular `"ALL"` never triggers topology extraction. -/
theorem C10_topology (fs : List String) (force : Bool) (stype path : String)
    {S : Type} (perturb : S → S) (basename outdir : String) (s : S)
    (count : Nat) :
    ((runLoop perturb basename outdir stype s count).2.any isComputeTopology =
      (!(runIndices count).isEmpty && containsSub "TOPOLOGY" stype)) ∧
    ((existingHistRun fs force stype path).any isComputeTopology =
      (containsSub "TOPOLOGY" stype &&
        (force || !(fs.contains (splitHead path ++ ".g23"))))) ∧
    (["BLOCK", "GEOPHYSICS", "SURFACES", "BLOCK_GEOPHYS", "TOPOLOGY",
      "BLOCK_SURFACES", "ALL"].filter fun m => containsSub "TOPOLOGY" m) =
      ["TOPOLOGY"] := by
  refine ⟨?_, ?_, by decide⟩
  · rw [runLoop_eq]
    dsimp only
    rw [anyTopology_flatMap]
  · simp only [existingHistRun]
    rw [List.any_append]
    have h1 : (if force || !(fs.contains (splitHead path ++ ".g01")) then
        [Call.computeModel path (splitHead path)]
      else []).any isComputeTopology = false := by
      split <;> simp [isComputeTopology]
    rw [h1]
    cases hc : containsSub "TOPOLOGY" stype <;>
      cases hif : (force || !(fs.contains (splitHead path ++ ".g23"))) <;>
        simp [hc, hif, isComputeTopology]
